import Mathlib

/-!
# Core-data selectors

A shallow embedding of `core-data/selectors.js`: the read accessors over the
cached state tree (terms, users, entities, embed previews, theme supports) and
the two queries of the resolution tracker.

Modelling conventions.

* A plain JavaScript object used as a dictionary is an `Obj α`: the list of its
  property definitions in the order they were written, read as an object
  literal is read (a later definition of a key overrides the value of an
  earlier one, the key keeps the position of its first definition).
* A property read `o[k]` walks the prototype chain: it yields the own property
  when there is one, and otherwise the member of `Object.prototype` under that
  key (`constructor`, `toString`, ...), when `k` names one. The members are
  those of the standard prototype; additions made by other code are not
  modelled.
* A property key is the string the runtime derives from the accessing
  expression; a numeric id is represented by that string.
* Record payloads (term lists, user records, entity records, previews) are
  dynamically typed `JSValue`s. Numbers are restricted to integers.
* The shape of the state tree above the payloads is the one the reducer
  maintains: `terms`, `users.byId`, `users.queries`, `entities[kind][name].byKey`,
  `embedPreviews`, `themeSupports`.
* A `TypeError` raised by reading a property of `undefined` is an
  `Except.error`.
* Values carry no reference identity. Where memoization needs it, a
  `TrackedState` pairs the tree with the addresses of the sub-trees a selector
  declares as dependants.
-/

namespace CoreData

/-- A plain object: property definitions in writing order. -/
abbrev Obj (α : Type) := List (String × α)

/-- JavaScript values read from the state tree. `inherited key` is the member
of `Object.prototype` found under `key`: a function of the runtime, or the
prototype object itself for `__proto__`. -/
inductive JSValue where
  | undefined : JSValue
  | null : JSValue
  | bool (b : Bool) : JSValue
  | num (n : Int) : JSValue
  | str (s : String) : JSValue
  | arr (items : List JSValue) : JSValue
  | obj (props : List (String × JSValue)) : JSValue
  | inherited (key : String) : JSValue

/-- Runtime failures of the selectors. -/
inductive JSError where
  | typeError : JSError
  deriving DecidableEq, Repr

namespace Obj

/-- Own property `k` of `o` (`[[GetOwnProperty]]`): the value of the last
definition of `k`, `none` when `k` is not an own key of `o`. -/
def find? {α : Type} : Obj α → String → Option α
  | [], _ => none
  | (k', v) :: rest, k =>
    match find? rest k with
    | some w => some w
    | none => if k' = k then some v else none

/-- The property keys every plain object inherits from `Object.prototype`. -/
def objectPrototypeKeys : List String :=
  ["constructor", "__defineGetter__", "__defineSetter__", "hasOwnProperty",
   "__lookupGetter__", "__lookupSetter__", "isPrototypeOf", "propertyIsEnumerable",
   "toString", "valueOf", "__proto__", "toLocaleString"]

/-- Outcome of the property read `o[k]` on a dictionary of sub-trees: the own
property, a member inherited from `Object.prototype`, or `undefined`. -/
inductive Read (α : Type) where
  | own (value : α) : Read α
  | inherited (key : String) : Read α
  | undefined : Read α

/-- Property read `o[k]`: the own property when `k` is an own key, else the
member of `Object.prototype` when `k` names one, else `undefined`. -/
def read {α : Type} (o : Obj α) (k : String) : Read α :=
  match find? o k with
  | some v => Read.own v
  | none => if k ∈ objectPrototypeKeys then Read.inherited k else Read.undefined

/-- Property read `o[k]` on an object of values. -/
def get (o : Obj JSValue) (k : String) : JSValue :=
  match read o k with
  | Read.own v => v
  | Read.inherited key => JSValue.inherited key
  | Read.undefined => JSValue.undefined

/-- The distinct keys of `o`, in the order of their first definition. -/
def keys {α : Type} : Obj α → List String
  | [] => []
  | (k, _) :: rest => k :: (keys rest).filter (fun k' => k' ≠ k)

/-- The array index denoted by a property key, if any: a canonical decimal
numeral (no sign, no leading zero) below `2^32 - 1`. -/
def arrayIndex? (k : String) : Option Nat :=
  match k.data with
  | [] => none
  | c :: cs =>
    if (c :: cs).all Char.isDigit && (c != '0' || cs.isEmpty) then
      let n := (c :: cs).foldl (fun acc d => 10 * acc + (d.toNat - 48)) 0
      if n < 2 ^ 32 - 1 then some n else none
    else none

/-- Ordering of array-index keys by ascending numeric value. -/
def indexLE (a b : String) : Prop :=
  (arrayIndex? a).getD 0 ≤ (arrayIndex? b).getD 0

instance : DecidableRel indexLE := fun a b =>
  inferInstanceAs (Decidable ((arrayIndex? a).getD 0 ≤ (arrayIndex? b).getD 0))

/-- Own property keys in enumeration order (`[[OwnPropertyKeys]]`): the
array-index keys in ascending numeric order, then the other keys in the order
of their creation. -/
def ownPropertyKeys {α : Type} (o : Obj α) : List String :=
  ((keys o).filter (fun k => (arrayIndex? k).isSome)).insertionSort indexLE
    ++ (keys o).filter (fun k => !(arrayIndex? k).isSome)

/-- Library `Object.values( o )`: the value of each own property, in
enumeration order. -/
def values (o : Obj JSValue) : List JSValue :=
  (ownPropertyKeys o).map (fun k => get o k)

end Obj

namespace JSValue

/-- ToBoolean: `undefined`, `null`, `false`, `0` and `''` are falsy. -/
def truthy : JSValue → Bool
  | undefined => false
  | null => false
  | bool b => b
  | num n => n != 0
  | str s => s != ""
  | arr _ => true
  | obj _ => true
  | inherited _ => true

/-- Property read `v.html`: a `TypeError` on `undefined` and `null`, the
property of an object, `undefined` on every other value (booleans, numbers,
strings, arrays and the members of `Object.prototype` have no such
property). -/
def html : JSValue → Except JSError JSValue
  | undefined => Except.error JSError.typeError
  | null => Except.error JSError.typeError
  | obj props => Except.ok (Obj.get props "html")
  | _ => Except.ok undefined

/-- Strict equality `s === v` with a string primitive on the left: true
exactly when `v` is the same string (no coercion). -/
def strictEqString (s : String) : JSValue → Bool
  | str t => s == t
  | _ => false

end JSValue

open JSValue

/-- Entity bucket `{ byKey }`. -/
structure Bucket where
  byKey : Obj JSValue

/-- Users slice `{ byId, queries }`. -/
structure Users where
  byId : Obj JSValue
  queries : Obj (List String)

/-- The state tree read by the selectors. -/
structure State where
  terms : Obj JSValue
  users : Users
  entities : Obj (Obj Bucket)
  embedPreviews : Obj JSValue
  themeSupports : JSValue

/-- Source `getPreview( state, url )`. -/
def getPreview (state : State) (url : String) : Except JSError JSValue := do
  let preview := Obj.get state.embedPreviews url
  if !preview.truthy then
    return preview
  let oEmbedLinkCheck := "<a href=\"" ++ url ++ "\">" ++ url ++ "</a>"
  let previewHtml ← preview.html
  if strictEqString oEmbedLinkCheck previewHtml then
    return JSValue.bool false
  return preview

/-- Library `map( collection, iteratee )` of lodash on what a dictionary of
arrays yields: an array is mapped element by element; `undefined` maps to the
empty array, and so does a member of `Object.prototype` (a function, or the
prototype object, neither array-like nor with an own enumerable property). -/
def lodashMap {α β : Type} (collection : Obj.Read (List α)) (iteratee : α → β) : List β :=
  match collection with
  | Obj.Read.own xs => xs.map iteratee
  | Obj.Read.inherited _ => []
  | Obj.Read.undefined => []

/-- The external resolution tracker `select( 'core/data' ).isResolving`,
injected: store key, selector name and the selector's arguments. -/
abbrev Tracker := String → String → List JSValue → Bool

/-- Modelled from the spec: the constant `REDUCER_KEY` is exported by the
package's index module, which is not part of the sources at hand; the store
the selectors are registered under is `core`, the key the selectors' test
expects the tracker to be asked for. -/
def REDUCER_KEY : String := "core"

/-- Source `isResolving( selectorName, ...args )`. -/
def isResolving (tracker : Tracker) (selectorName : String) (args : List JSValue) : Bool :=
  tracker REDUCER_KEY selectorName args

/-- Source `getTerms( state, taxonomy )`. -/
def getTerms (state : State) (taxonomy : String) : JSValue :=
  Obj.get state.terms taxonomy

/-- Source `getCategories( state )`. -/
def getCategories (state : State) : JSValue :=
  getTerms state "categories"

/-- Source `isRequestingTerms( state, taxonomy )`. -/
def isRequestingTerms (tracker : Tracker) (_state : State) (taxonomy : String) : Bool :=
  isResolving tracker "getTerms" [JSValue.str taxonomy]

/-- Source `isRequestingCategories()`. -/
def isRequestingCategories (tracker : Tracker) : Bool :=
  isResolving tracker "getCategories" []

/-- Source `getUserQueryResults( state, queryID )`, the computation wrapped
by `createSelector`. -/
def getUserQueryResults (state : State) (queryID : String) : List JSValue :=
  let queryResults := Obj.read state.users.queries queryID
  lodashMap queryResults (fun id => Obj.get state.users.byId id)

/-- Source `getAuthors( state )`. -/
def getAuthors (state : State) : List JSValue :=
  getUserQueryResults state "authors"

/-- Continuing the chain `[ kind ][ name ].byKey[ key ]` through an
intermediate read. An own sub-tree is read further. `undefined` raises a
`TypeError` at the next property read. A member of `Object.prototype` has no
`byKey`, and neither has anything a property read on it yields, so the chain
reaches a read on `undefined` and raises the same `TypeError`. -/
def member {α : Type} : Obj.Read α → Except JSError α
  | Obj.Read.own a => Except.ok a
  | Obj.Read.inherited _ => Except.error JSError.typeError
  | Obj.Read.undefined => Except.error JSError.typeError

/-- Source `getEntityRecord( state, kind, name, key )`. -/
def getEntityRecord (state : State) (kind name key : String) : Except JSError JSValue := do
  let byKind ← member (Obj.read state.entities kind)
  let bucket ← member (Obj.read byKind name)
  return Obj.get bucket.byKey key

/-- Source `getEntityRecords( state, kind, name )`, the computation wrapped
by `createSelector`. -/
def getEntityRecords (state : State) (kind name : String) : Except JSError (List JSValue) := do
  let byKind ← member (Obj.read state.entities kind)
  let bucket ← member (Obj.read byKind name)
  return Obj.values bucket.byKey

/-- Source `getThemeSupports( state )`. -/
def getThemeSupports (state : State) : JSValue :=
  state.themeSupports

/-- The mock tracker of the selectors test, `setIsResolving( isResolving )`. -/
def setIsResolving (flag : Bool) : Tracker :=
  fun reducerKey selectorName _ =>
    flag && reducerKey == "core" && selectorName == "getCategories"

/-- The state tree with every slice empty. -/
def emptyState : State :=
  { terms := [], users := { byId := [], queries := [] }, entities := [],
    embedPreviews := [], themeSupports := JSValue.undefined }

/-- State holding one embed preview. -/
def previewState (url : String) (preview : JSValue) : State :=
  { emptyState with embedPreviews := [(url, preview)] }

/-- State holding the users slice only. -/
def usersState (byId : Obj JSValue) (queries : Obj (List String)) : State :=
  { emptyState with users := { byId := byId, queries := queries } }

/-- State holding one entity bucket, `entities[kind][name] = { byKey }`. -/
def bucketState (kind name : String) (byKey : Obj JSValue) : State :=
  { emptyState with entities := [(kind, [(name, { byKey := byKey })])] }

/-- State holding the terms slice only. -/
def termsState (terms : Obj JSValue) : State :=
  { emptyState with terms := terms }

/-- The record `{ slug }` of the entity fixtures. -/
def slugRecord (slug : String) : JSValue :=
  JSValue.obj [("slug", JSValue.str slug)]

/-- The user record `{ id, name }`. -/
def userRecord (id : Int) (name : String) : JSValue :=
  JSValue.obj [("id", JSValue.num id), ("name", JSValue.str name)]

/-! ## Reference identity and memoization -/

/-- Identity of a value handed to the memoizer as a dependant: the primitive
`undefined`, identical to itself; an object of the store, identical only to
the object at the same address; or a member of `Object.prototype`, identical
to itself. -/
inductive DepId where
  | undefined : DepId
  | object (address : Nat) : DepId
  | builtin (key : String) : DepId
  deriving DecidableEq, Repr

/-- A state tree as a memoized selector receives it: the tree, and the
addresses at which the store holds the sub-trees of the users slice, the
`byId` map and the id list of each query. -/
structure TrackedState where
  state : State
  byIdAddress : Nat
  queryAddress : String → Nat

/-- Identity of `state.users.queries[ queryID ]`: the address of the id list
of the query, a member of `Object.prototype`, or `undefined`. -/
def queryDependant (s : TrackedState) (queryID : String) : DepId :=
  match Obj.read s.state.users.queries queryID with
  | Obj.Read.own _ => DepId.object (s.queryAddress queryID)
  | Obj.Read.inherited key => DepId.builtin key
  | Obj.Read.undefined => DepId.undefined

/-- Source: the dependants of `getUserQueryResults`,
`[ state.users.queries[ queryID ], state.users.byId ]`, by identity. -/
def getUserQueryResultsDependants (s : TrackedState) (queryID : String) : List DepId :=
  [queryDependant s queryID, DepId.object s.byIdAddress]

/-- One entry of the cache of a memoized selector: the query id and the
dependants it is kept under, and the result. -/
structure MemoEntry where
  queryID : String
  dependants : List DepId
  result : List JSValue

/-- The result kept in the cache under a query id and dependants, if any. -/
def cacheLookup (cache : List MemoEntry) (queryID : String) (dependants : List DepId) :
    Option (List JSValue) :=
  match cache with
  | [] => none
  | entry :: rest =>
    if entry.queryID = queryID ∧ entry.dependants = dependants then some entry.result
    else cacheLookup rest queryID dependants

/-- Outcome of one call of the memoized selector. -/
structure MemoStep where
  result : List JSValue
  recomputed : Bool
  cache : List MemoEntry

/-- Modelled from the spec: `createSelector` belongs to the memoization
library, which is not part of the sources at hand. The memoized selector keeps
results keyed by the identities of its declared dependants and by the query
id. A call under a key that has a result returns it without running the
computation; a call under any other key, that is when the query is new or a
dependant has another identity, runs the computation and keeps the result
under the key. -/
def memoizedGetUserQueryResults (cache : List MemoEntry) (s : TrackedState)
    (queryID : String) : MemoStep :=
  let dependants := getUserQueryResultsDependants s queryID
  match cacheLookup cache queryID dependants with
  | some kept => { result := kept, recomputed := false, cache := cache }
  | none =>
    let result := getUserQueryResults s.state queryID
    { result := result, recomputed := true,
      cache := { queryID := queryID, dependants := dependants, result := result } :: cache }

/-- A sequence of calls of the memoized selector, threading the cache: the
outcome of each call in order. -/
def runCalls : List MemoEntry → List (TrackedState × String) → List MemoStep
  | _, [] => []
  | cache, (s, queryID) :: rest =>
    let step := memoizedGetUserQueryResults cache s queryID
    step :: runCalls step.cache rest

/-- The cache left by a sequence of calls. -/
def cacheAfter : List MemoEntry → List (TrackedState × String) → List MemoEntry
  | cache, [] => cache
  | cache, (s, queryID) :: rest =>
    cacheAfter (memoizedGetUserQueryResults cache s queryID).cache rest

/-- The store replaces and never mutates: between two states, the `byId` maps
held at the same address are the same map, and the id lists of a query held at
the same address are the same list. -/
def Coherent (s s' : TrackedState) : Prop :=
  (s.byIdAddress = s'.byIdAddress → s.state.users.byId = s'.state.users.byId)
    ∧ ∀ queryID ids ids',
        Obj.find? s.state.users.queries queryID = some ids →
        Obj.find? s'.state.users.queries queryID = some ids' →
        s.queryAddress queryID = s'.queryAddress queryID →
        ids = ids'

/-- Tracked state of the fixtures: the users `ann` and `bob` in a `byId` map
at address 1, the queries `authors` and `editors` with their id lists at
addresses 2 and 3, and the given terms slice. -/
def trackedFixture (terms : Obj JSValue) : TrackedState :=
  { state :=
      { emptyState with
        terms := terms,
        users :=
          { byId := [("1", userRecord 1 "ann"), ("2", userRecord 2 "bob")],
            queries := [("authors", ["2", "1"]), ("editors", ["1"])] } },
    byIdAddress := 1,
    queryAddress := fun queryID => if queryID = "authors" then 2 else 3 }

/-- State holding the bucket `root`/`postType` with the records of `post` and
`page`, next to another kind and the given terms slice. -/
def mixedState (terms : Obj JSValue) (other : Obj (Obj Bucket)) : State :=
  { emptyState with
    terms := terms,
    entities := other ++ [("root", [("postType",
      { byKey := [("post", slugRecord "post"), ("page", slugRecord "page")] })])] }

/-! ## Properties of the dictionary model -/

theorem Obj.mem_keys_iff {α : Type} (o : Obj α) (k : String) :
    k ∈ Obj.keys o ↔ ∃ v, Obj.find? o k = some v := by
  induction o with
  | nil => simp [Obj.keys, Obj.find?]
  | cons p rest ih =>
    obtain ⟨k', v⟩ := p
    simp only [Obj.keys, Obj.find?, List.mem_cons, List.mem_filter, ih]
    cases hr : Obj.find? rest k with
    | some w => by_cases hk : k = k' <;> simp [hk]
    | none =>
      by_cases hk : k' = k
      · simp [hk]
      · have hk2 : ¬ k = k' := fun h => hk h.symm
        simp [hk, hk2]

theorem Obj.nodup_keys {α : Type} (o : Obj α) : (Obj.keys o).Nodup := by
  induction o with
  | nil => simp [Obj.keys]
  | cons p rest ih =>
    obtain ⟨k', v⟩ := p
    simp only [Obj.keys, List.nodup_cons, List.mem_filter]
    exact ⟨by simp, ih.filter _⟩

theorem Obj.ownPropertyKeys_perm {α : Type} (o : Obj α) :
    (Obj.ownPropertyKeys o).Perm (Obj.keys o) := by
  unfold Obj.ownPropertyKeys
  exact ((List.perm_insertionSort _ _).append_right _).trans
    (List.filter_append_perm _ _)

theorem Obj.values_perm (o : Obj JSValue) :
    (Obj.values o).Perm ((Obj.keys o).map (fun k => Obj.get o k)) :=
  (Obj.ownPropertyKeys_perm o).map _

theorem Obj.read_of_own {α : Type} (o : Obj α) (k : String) (v : α)
    (h : Obj.find? o k = some v) : Obj.read o k = Obj.Read.own v := by
  simp [Obj.read, h]

theorem Obj.read_of_absent {α : Type} (o : Obj α) (k : String)
    (h : Obj.find? o k = none) (hk : k ∉ Obj.objectPrototypeKeys) :
    Obj.read o k = Obj.Read.undefined := by
  simp [Obj.read, h, hk]

theorem Obj.read_of_inherited {α : Type} (o : Obj α) (k : String)
    (h : Obj.find? o k = none) (hk : k ∈ Obj.objectPrototypeKeys) :
    Obj.read o k = Obj.Read.inherited k := by
  simp [Obj.read, h, hk]

theorem Obj.get_of_own (o : Obj JSValue) (k : String) (v : JSValue)
    (h : Obj.find? o k = some v) : Obj.get o k = v := by
  simp [Obj.get, Obj.read_of_own o k v h]

theorem Obj.get_of_absent (o : Obj JSValue) (k : String)
    (h : Obj.find? o k = none) (hk : k ∉ Obj.objectPrototypeKeys) :
    Obj.get o k = JSValue.undefined := by
  simp [Obj.get, Obj.read_of_absent o k h hk]

theorem Obj.get_of_inherited (o : Obj JSValue) (k : String)
    (h : Obj.find? o k = none) (hk : k ∈ Obj.objectPrototypeKeys) :
    Obj.get o k = JSValue.inherited k := by
  simp [Obj.get, Obj.read_of_inherited o k h hk]

theorem member_read_of_own {α : Type} (o : Obj α) (k : String) (v : α)
    (h : Obj.find? o k = some v) : member (Obj.read o k) = Except.ok v := by
  simp [Obj.read_of_own o k v h, member]

theorem member_read_of_none {α : Type} (o : Obj α) (k : String)
    (h : Obj.find? o k = none) :
    member (Obj.read o k) = Except.error JSError.typeError := by
  by_cases hk : k ∈ Obj.objectPrototypeKeys
  · simp [Obj.read_of_inherited o k h hk, member]
  · simp [Obj.read_of_absent o k h hk, member]

theorem html_not_inherited : "html" ∉ Obj.objectPrototypeKeys := by decide

/-! ## Embed previews -/

/-- C1: when the preview stored for `url` is an object whose `html` field is
exactly the anchor markup wrapping `url` as both target and text, `getPreview`
returns the boolean `false`, and so does not return the preview object. -/
theorem getPreview_bare_link (state : State) (url : String) (props : Obj JSValue)
    (hstored : Obj.find? state.embedPreviews url = some (JSValue.obj props))
    (hhtml : Obj.find? props "html"
      = some (JSValue.str ("<a href=\"" ++ url ++ "\">" ++ url ++ "</a>"))) :
    getPreview state url = Except.ok (JSValue.bool false)
      ∧ getPreview state url ≠ Except.ok (JSValue.obj props) := by
  have h : getPreview state url = Except.ok (JSValue.bool false) := by
    simp [getPreview, Obj.get_of_own _ _ _ hstored, JSValue.truthy, JSValue.html,
      Obj.get_of_own _ _ _ hhtml, JSValue.strictEqString, bind, Except.bind, pure,
      Except.pure]
  refine ⟨h, ?_⟩
  rw [h]
  intro hc
  cases hc

/-- Witness of C1 on the fixture of the selectors test. -/
theorem getPreview_bare_link_witness :
    getPreview
        (previewState "http://example.com/"
          (JSValue.obj [("html",
            JSValue.str "<a href=\"http://example.com/\">http://example.com/</a>")]))
        "http://example.com/" = Except.ok (JSValue.bool false) :=
  (getPreview_bare_link
    (previewState "http://example.com/"
      (JSValue.obj [("html",
        JSValue.str "<a href=\"http://example.com/\">http://example.com/</a>")]))
    "http://example.com/"
    [("html", JSValue.str "<a href=\"http://example.com/\">http://example.com/</a>")]
    rfl rfl).1

/-- C2: when the preview stored for `url` is an object whose `html` field is
absent, or is a string other than the anchor markup wrapping `url`,
`getPreview` returns that stored preview object unchanged. -/
theorem getPreview_stored (state : State) (url : String) (props : Obj JSValue)
    (hstored : Obj.find? state.embedPreviews url = some (JSValue.obj props))
    (hhtml : Obj.find? props "html" = none
      ∨ ∃ s, Obj.find? props "html" = some (JSValue.str s)
          ∧ s ≠ "<a href=\"" ++ url ++ "\">" ++ url ++ "</a>") :
    getPreview state url = Except.ok (JSValue.obj props) := by
  rcases hhtml with habsent | ⟨s, hs, hne⟩
  · simp [getPreview, Obj.get_of_own _ _ _ hstored, JSValue.truthy, JSValue.html,
      Obj.get_of_absent _ _ habsent html_not_inherited, JSValue.strictEqString, bind,
      Except.bind, pure, Except.pure]
  · have hne2 : ¬ "<a href=\"" ++ url ++ "\">" ++ url ++ "</a>" = s := fun h => hne h.symm
    simp [getPreview, Obj.get_of_own _ _ _ hstored, JSValue.truthy, JSValue.html,
      Obj.get_of_own _ _ _ hs, JSValue.strictEqString, bind, Except.bind, pure,
      Except.pure, hne2]

/-- Witness of C2: a preview whose markup is a bare link to another URL is
returned as stored. -/
theorem getPreview_stored_witness :
    getPreview
        (previewState "http://example.com/"
          (JSValue.obj [("html",
            JSValue.str "<a href=\"http://example.org/\">http://example.org/</a>")]))
        "http://example.com/"
      = Except.ok (JSValue.obj [("html",
          JSValue.str "<a href=\"http://example.org/\">http://example.org/</a>")]) :=
  getPreview_stored
    (previewState "http://example.com/"
      (JSValue.obj [("html",
        JSValue.str "<a href=\"http://example.org/\">http://example.org/</a>")]))
    "http://example.com/"
    [("html", JSValue.str "<a href=\"http://example.org/\">http://example.org/</a>")]
    rfl
    (Or.inr ⟨"<a href=\"http://example.org/\">http://example.org/</a>", rfl, by decide⟩)

/-- C3: on a state with no preview at all, `getPreview` called with the key
`constructor` does not return `undefined`: the read of `embedPreviews` finds
the member of `Object.prototype` under that key, which is truthy and has no
`html`, and that member is returned. -/
theorem getPreview_inherited_key :
    Obj.find? emptyState.embedPreviews "constructor" = none
      ∧ getPreview emptyState "constructor"
          = Except.ok (JSValue.inherited "constructor")
      ∧ getPreview emptyState "constructor" ≠ Except.ok JSValue.undefined := by
  refine ⟨rfl, rfl, ?_⟩
  intro h
  cases h

/-! ## Users -/

/-- C4: when the id list of query `q` is `ids`, `getUserQueryResults` is `ids`
mapped through `byId`: same length, and at every position the record read from
`byId` under the id at that position. -/
theorem getUserQueryResults_maps (state : State) (q : String) (ids : List String)
    (hq : Obj.find? state.users.queries q = some ids) :
    getUserQueryResults state q = ids.map (fun id => Obj.get state.users.byId id)
      ∧ (getUserQueryResults state q).length = ids.length
      ∧ ∀ i : Nat, (getUserQueryResults state q)[i]?
          = (ids[i]?).map (fun id => Obj.get state.users.byId id) := by
  have h : getUserQueryResults state q = ids.map (fun id => Obj.get state.users.byId id) := by
    simp [getUserQueryResults, Obj.read_of_own _ _ _ hq, lodashMap]
  refine ⟨h, ?_, ?_⟩
  · rw [h, List.length_map]
  · intro i
    rw [h, List.getElem?_map]

/-- Witness of C4: an id list with a repeated id and an id out of creation
order is mapped position by position. -/
theorem getUserQueryResults_maps_witness :
    getUserQueryResults
        (usersState [("1", userRecord 1 "ann"), ("2", userRecord 2 "bob")]
          [("authors", ["2", "1", "2"])])
        "authors"
      = [userRecord 2 "bob", userRecord 1 "ann", userRecord 2 "bob"] :=
  (getUserQueryResults_maps
    (usersState [("1", userRecord 1 "ann"), ("2", userRecord 2 "bob")]
      [("authors", ["2", "1", "2"])])
    "authors" ["2", "1", "2"] rfl).1

/-! ## Entities -/

/-- C5, counterexample: in an existing bucket with an empty `byKey`, the key
`toString` is not a key of `byKey`, yet `getEntityRecord` returns the member
of `Object.prototype` under that key and not `undefined`. -/
theorem getEntityRecord_inherited_key :
    Obj.find? ([] : Obj JSValue) "toString" = none
      ∧ getEntityRecord (bucketState "root" "postType" []) "root" "postType" "toString"
          = Except.ok (JSValue.inherited "toString")
      ∧ getEntityRecord (bucketState "root" "postType" []) "root" "postType" "toString"
          ≠ Except.ok JSValue.undefined := by
  refine ⟨rfl, rfl, ?_⟩
  intro h
  cases h

/-- C5, amended: when the bucket `entities[kind][name]` exists,
`getEntityRecord` returns the record stored under the key when the key is a
key of `byKey`, and returns `undefined` when the key is not a key of `byKey`
and does not name a member of `Object.prototype`. -/
theorem getEntityRecord_lookup (state : State) (kind name key : String)
    (byKind : Obj Bucket) (bucket : Bucket)
    (hkind : Obj.find? state.entities kind = some byKind)
    (hname : Obj.find? byKind name = some bucket) :
    (Obj.find? bucket.byKey key = none → key ∉ Obj.objectPrototypeKeys →
        getEntityRecord state kind name key = Except.ok JSValue.undefined)
      ∧ (∀ record, Obj.find? bucket.byKey key = some record →
        getEntityRecord state kind name key = Except.ok record) := by
  constructor
  · intro habsent hkey
    simp [getEntityRecord, member_read_of_own _ _ _ hkind, member_read_of_own _ _ _ hname,
      Obj.get_of_absent _ _ habsent hkey, bind, Except.bind, pure, Except.pure]
  · intro record hrecord
    simp [getEntityRecord, member_read_of_own _ _ _ hkind, member_read_of_own _ _ _ hname,
      Obj.get_of_own _ _ _ hrecord, bind, Except.bind, pure, Except.pure]

/-- Witness of C5 on the fixtures of the selectors test: the stored record for
a known key, `undefined` for an unknown one. -/
theorem getEntityRecord_lookup_witness :
    getEntityRecord (bucketState "root" "postType" [("post", slugRecord "post")])
        "root" "postType" "post" = Except.ok (slugRecord "post")
      ∧ getEntityRecord (bucketState "root" "postType" [])
        "root" "postType" "post" = Except.ok JSValue.undefined :=
  ⟨(getEntityRecord_lookup
      (bucketState "root" "postType" [("post", slugRecord "post")])
      "root" "postType" "post"
      [("postType", { byKey := [("post", slugRecord "post")] })]
      { byKey := [("post", slugRecord "post")] } rfl rfl).2 (slugRecord "post") rfl,
   (getEntityRecord_lookup (bucketState "root" "postType" [])
      "root" "postType" "post"
      [("postType", { byKey := [] })] { byKey := [] } rfl rfl).1 rfl (by decide)⟩

/-- C6: `getEntityRecord` fails exactly when the bucket is missing, that is
when `entities` has no entry for `kind` or `entities[kind]` has no entry for
`name`; it returns a value exactly when the bucket exists, whatever the key. -/
theorem getEntityRecord_fails_iff (state : State) (kind name key : String) :
    ((∃ e, getEntityRecord state kind name key = Except.error e) ↔
        (Obj.find? state.entities kind = none
          ∨ ∃ byKind, Obj.find? state.entities kind = some byKind
              ∧ Obj.find? byKind name = none))
      ∧ ((∃ value, getEntityRecord state kind name key = Except.ok value) ↔
        ∃ byKind bucket, Obj.find? state.entities kind = some byKind
          ∧ Obj.find? byKind name = some bucket) := by
  cases hkind : Obj.find? state.entities kind with
  | none =>
    simp [getEntityRecord, member_read_of_none _ _ hkind, bind, Except.bind]
    exact ⟨JSError.typeError, trivial⟩
  | some byKind =>
    cases hname : Obj.find? byKind name with
    | none =>
      simp [getEntityRecord, member_read_of_own _ _ _ hkind, member_read_of_none _ _ hname,
        bind, Except.bind, hname]
      exact ⟨JSError.typeError, trivial⟩
    | some bucket =>
      simp [getEntityRecord, member_read_of_own _ _ _ hkind,
        member_read_of_own _ _ _ hname, bind, Except.bind, pure, Except.pure, hname]

/-- C7: when the bucket `entities[kind][name]` exists, `getEntityRecords`
returns a list that is empty when `byKey` is empty and is otherwise a
permutation of the values of `byKey`, one element per key: the keys are
distinct, and they are exactly the keys under which `byKey` holds a value. -/
theorem getEntityRecords_perm (state : State) (kind name : String)
    (byKind : Obj Bucket) (bucket : Bucket)
    (hkind : Obj.find? state.entities kind = some byKind)
    (hname : Obj.find? byKind name = some bucket) :
    ∃ records, getEntityRecords state kind name = Except.ok records
      ∧ (bucket.byKey = [] → records = [])
      ∧ records.Perm ((Obj.keys bucket.byKey).map (fun k => Obj.get bucket.byKey k))
      ∧ records.length = (Obj.keys bucket.byKey).length
      ∧ (Obj.keys bucket.byKey).Nodup
      ∧ ∀ k, k ∈ Obj.keys bucket.byKey ↔ ∃ v, Obj.find? bucket.byKey k = some v := by
  refine ⟨Obj.values bucket.byKey, ?_, ?_, Obj.values_perm _, ?_, Obj.nodup_keys _,
    Obj.mem_keys_iff _⟩
  · simp [getEntityRecords, member_read_of_own _ _ _ hkind, member_read_of_own _ _ _ hname,
      bind, Except.bind, pure, Except.pure]
  · intro hempty
    rw [hempty]
    rfl
  · rw [(Obj.values_perm bucket.byKey).length_eq, List.length_map]

/-- Witness of C7 on the fixture of the selectors test, a bucket holding the
records of `post` and `page`. -/
theorem getEntityRecords_perm_witness :
    ∃ records,
      getEntityRecords
          (bucketState "root" "postType"
            [("post", slugRecord "post"), ("page", slugRecord "page")])
          "root" "postType" = Except.ok records
        ∧ records.Perm [slugRecord "post", slugRecord "page"]
        ∧ records.length = 2 :=
  match getEntityRecords_perm
      (bucketState "root" "postType"
        [("post", slugRecord "post"), ("page", slugRecord "page")])
      "root" "postType"
      [("postType", { byKey := [("post", slugRecord "post"), ("page", slugRecord "page")] })]
      { byKey := [("post", slugRecord "post"), ("page", slugRecord "page")] } rfl rfl with
  | ⟨records, hok, _, hperm, hlen, _, _⟩ => ⟨records, hok, hperm, hlen⟩

/-! ## Terms -/

/-- C8, counterexample: with an empty `terms`, the taxonomy name `toString`
has no entry, yet `getTerms` returns the member of `Object.prototype` under
that key and not `undefined`. -/
theorem getTerms_inherited_key :
    Obj.find? (termsState []).terms "toString" = none
      ∧ getTerms (termsState []) "toString" = JSValue.inherited "toString"
      ∧ getTerms (termsState []) "toString" ≠ JSValue.undefined := by
  refine ⟨rfl, rfl, ?_⟩
  intro h
  cases h

/-- C8, amended: `getTerms` returns the stored value, unchanged, when `terms`
has an entry for the taxonomy, and returns `undefined` when `terms` has no
entry for it and the taxonomy name does not name a member of
`Object.prototype`. -/
theorem getTerms_lookup (state : State) (taxonomy : String) :
    (Obj.find? state.terms taxonomy = none → taxonomy ∉ Obj.objectPrototypeKeys →
        getTerms state taxonomy = JSValue.undefined)
      ∧ (∀ stored, Obj.find? state.terms taxonomy = some stored →
          getTerms state taxonomy = stored) := by
  constructor
  · intro habsent hname
    simp [getTerms, Obj.get_of_absent _ _ habsent hname]
  · intro stored hstored
    simp [getTerms, Obj.get_of_own _ _ _ hstored]

/-- Witness of C8 on the fixtures of the selectors test. -/
theorem getTerms_lookup_witness :
    getTerms (termsState []) "categories" = JSValue.undefined
      ∧ getTerms
          (termsState [("categories", JSValue.arr [JSValue.obj [("id", JSValue.num 1)]])])
          "categories" = JSValue.arr [JSValue.obj [("id", JSValue.num 1)]] :=
  ⟨(getTerms_lookup (termsState []) "categories").1 rfl (by decide),
   (getTerms_lookup
      (termsState [("categories", JSValue.arr [JSValue.obj [("id", JSValue.num 1)]])])
      "categories").2 (JSValue.arr [JSValue.obj [("id", JSValue.num 1)]]) rfl⟩

/-! ## Resolution tracking -/

/-- C9: `isRequestingCategories` is the tracker's answer for store key `core`,
selector name `getCategories` and no argument: true exactly when the tracker
reports that resolution in progress. It is false under a tracker that reports
nothing in progress, false under the mock of the test once resolution finished
and true under that mock while resolution is in progress. -/
theorem isRequestingCategories_tracker (tracker : Tracker) :
    (isRequestingCategories tracker = true ↔ tracker "core" "getCategories" [] = true)
      ∧ (isRequestingCategories tracker = false ↔ tracker "core" "getCategories" [] = false)
      ∧ isRequestingCategories (fun _ _ _ => false) = false
      ∧ isRequestingCategories (setIsResolving false) = false
      ∧ isRequestingCategories (setIsResolving true) = true := by
  refine ⟨Iff.rfl, Iff.rfl, rfl, rfl, ?_⟩
  decide

/-- C10: `isRequestingTerms` does not read the state: on any two states it
gives the same value, the tracker's answer for store key `core`, selector name
`getTerms` and the taxonomy as single argument. -/
theorem isRequestingTerms_state_independent (tracker : Tracker) (s1 s2 : State)
    (taxonomy : String) :
    isRequestingTerms tracker s1 taxonomy = isRequestingTerms tracker s2 taxonomy
      ∧ isRequestingTerms tracker s1 taxonomy
          = tracker "core" "getTerms" [JSValue.str taxonomy] :=
  ⟨rfl, rfl⟩

/-! ## Memoization -/

theorem getUserQueryResults_of_same_dependants (s s' : TrackedState) (queryID : String)
    (hcoh : Coherent s s')
    (hdeps : getUserQueryResultsDependants s queryID
      = getUserQueryResultsDependants s' queryID) :
    getUserQueryResults s.state queryID = getUserQueryResults s'.state queryID := by
  simp only [getUserQueryResultsDependants, List.cons.injEq, DepId.object.injEq,
    and_true] at hdeps
  obtain ⟨hquery, haddress⟩ := hdeps
  have hbyId := hcoh.1 haddress
  unfold queryDependant Obj.read at hquery
  unfold getUserQueryResults Obj.read
  rw [hbyId]
  cases h : Obj.find? s.state.users.queries queryID with
  | some ids =>
    cases h' : Obj.find? s'.state.users.queries queryID with
    | some ids' =>
      rw [h, h'] at hquery
      simp only [DepId.object.injEq] at hquery
      rw [hcoh.2 queryID ids ids' h h' hquery]
    | none =>
      rw [h, h'] at hquery
      by_cases hk : queryID ∈ Obj.objectPrototypeKeys <;> simp [hk] at hquery
  | none =>
    cases h' : Obj.find? s'.state.users.queries queryID with
    | some ids' =>
      rw [h, h'] at hquery
      by_cases hk : queryID ∈ Obj.objectPrototypeKeys <;> simp [hk] at hquery
    | none => rfl

theorem cacheLookup_cons (entry : MemoEntry) (cache : List MemoEntry) (queryID : String)
    (dependants : List DepId) :
    cacheLookup (entry :: cache) queryID dependants
      = if entry.queryID = queryID ∧ entry.dependants = dependants then some entry.result
        else cacheLookup cache queryID dependants := rfl

theorem memoized_of_kept (cache : List MemoEntry) (s : TrackedState) (queryID : String)
    (kept : List JSValue)
    (h : cacheLookup cache queryID (getUserQueryResultsDependants s queryID) = some kept) :
    memoizedGetUserQueryResults cache s queryID
      = { result := kept, recomputed := false, cache := cache } := by
  simp only [memoizedGetUserQueryResults, h]

theorem memoized_of_new (cache : List MemoEntry) (s : TrackedState) (queryID : String)
    (h : cacheLookup cache queryID (getUserQueryResultsDependants s queryID) = none) :
    memoizedGetUserQueryResults cache s queryID
      = { result := getUserQueryResults s.state queryID, recomputed := true,
          cache := { queryID := queryID,
                     dependants := getUserQueryResultsDependants s queryID,
                     result := getUserQueryResults s.state queryID } :: cache } := by
  simp only [memoizedGetUserQueryResults, h]

theorem memoized_keeps (cache : List MemoEntry) (s : TrackedState) (queryID : String) :
    cacheLookup (memoizedGetUserQueryResults cache s queryID).cache queryID
        (getUserQueryResultsDependants s queryID)
      = some (memoizedGetUserQueryResults cache s queryID).result := by
  cases h : cacheLookup cache queryID (getUserQueryResultsDependants s queryID) with
  | some kept => rw [memoized_of_kept cache s queryID kept h]; exact h
  | none => rw [memoized_of_new cache s queryID h]; simp [cacheLookup_cons]

theorem memoized_preserves (cache : List MemoEntry) (s : TrackedState) (queryID : String)
    (q : String) (d : List DepId) (r : List JSValue)
    (hkept : cacheLookup cache q d = some r) :
    cacheLookup (memoizedGetUserQueryResults cache s queryID).cache q d = some r := by
  cases h : cacheLookup cache queryID (getUserQueryResultsDependants s queryID) with
  | some kept => rw [memoized_of_kept cache s queryID kept h]; exact hkept
  | none =>
    rw [memoized_of_new cache s queryID h]
    simp only [cacheLookup_cons]
    by_cases hkey : queryID = q ∧ getUserQueryResultsDependants s queryID = d
    · obtain ⟨hq, hd⟩ := hkey
      subst hq
      subst hd
      rw [h] at hkept
      cases hkept
    · simp only [hkey, if_false]
      exact hkept

theorem memoized_hit (cache : List MemoEntry) (s : TrackedState) (queryID : String)
    (r : List JSValue)
    (hkept : cacheLookup cache queryID (getUserQueryResultsDependants s queryID) = some r) :
    (memoizedGetUserQueryResults cache s queryID).result = r
      ∧ (memoizedGetUserQueryResults cache s queryID).recomputed = false := by
  rw [memoized_of_kept cache s queryID r hkept]
  exact ⟨rfl, rfl⟩

theorem cacheAfter_preserves (calls : List (TrackedState × String)) :
    ∀ (cache : List MemoEntry) (q : String) (d : List DepId) (r : List JSValue),
      cacheLookup cache q d = some r → cacheLookup (cacheAfter cache calls) q d = some r := by
  induction calls with
  | nil => intro cache q d r h; exact h
  | cons call rest ih =>
    obtain ⟨s, queryID⟩ := call
    intro cache q d r h
    exact ih _ q d r (memoized_preserves cache s queryID q d r h)

theorem runCalls_append (pre : List (TrackedState × String)) :
    ∀ (cache : List MemoEntry) (post : List (TrackedState × String)),
      runCalls cache (pre ++ post)
        = runCalls cache pre ++ runCalls (cacheAfter cache pre) post := by
  induction pre with
  | nil => intro cache post; rfl
  | cons call rest ih =>
    obtain ⟨s, queryID⟩ := call
    intro cache post
    show memoizedGetUserQueryResults cache s queryID
          :: runCalls (memoizedGetUserQueryResults cache s queryID).cache (rest ++ post)
        = memoizedGetUserQueryResults cache s queryID
          :: (runCalls (memoizedGetUserQueryResults cache s queryID).cache rest
            ++ runCalls (cacheAfter (memoizedGetUserQueryResults cache s queryID).cache rest)
                post)
    rw [ih]

theorem runCalls_length (calls : List (TrackedState × String)) :
    ∀ cache : List MemoEntry, (runCalls cache calls).length = calls.length := by
  induction calls with
  | nil => intro cache; rfl
  | cons call rest ih =>
    obtain ⟨s, queryID⟩ := call
    intro cache
    simp only [runCalls, List.length_cons, ih]

theorem memoized_result_sound (cache : List MemoEntry) (s : TrackedState)
    (queryID : String)
    (hsound : ∀ q d r, cacheLookup cache q d = some r → ∃ origin : TrackedState,
      r = getUserQueryResults origin.state q
        ∧ d = getUserQueryResultsDependants origin q
        ∧ Coherent origin s) :
    (memoizedGetUserQueryResults cache s queryID).result
      = getUserQueryResults s.state queryID := by
  cases h : cacheLookup cache queryID (getUserQueryResultsDependants s queryID) with
  | some kept =>
    rw [memoized_of_kept cache s queryID kept h]
    obtain ⟨origin, hres, hdeps, hcoh⟩ := hsound _ _ _ h
    rw [hres]
    exact getUserQueryResults_of_same_dependants origin s queryID hcoh hdeps.symm
  | none => rw [memoized_of_new cache s queryID h]

theorem runCalls_results (calls : List (TrackedState × String)) :
    ∀ cache : List MemoEntry,
      (∀ q d r, cacheLookup cache q d = some r → ∃ origin : TrackedState,
        r = getUserQueryResults origin.state q
          ∧ d = getUserQueryResultsDependants origin q
          ∧ ∀ c ∈ calls, Coherent origin c.1) →
      (∀ c ∈ calls, ∀ c' ∈ calls, Coherent c.1 c'.1) →
      (runCalls cache calls).map MemoStep.result
        = calls.map (fun c => getUserQueryResults c.1.state c.2) := by
  induction calls with
  | nil => intro _ _ _; rfl
  | cons call rest ih =>
    obtain ⟨s, queryID⟩ := call
    intro cache hsound hcoh
    have hhead : (memoizedGetUserQueryResults cache s queryID).result
        = getUserQueryResults s.state queryID := by
      apply memoized_result_sound
      intro q d r hkept
      obtain ⟨origin, hres, hdeps, hall⟩ := hsound q d r hkept
      exact ⟨origin, hres, hdeps, hall (s, queryID) (List.mem_cons_self _ _)⟩
    simp only [runCalls, List.map_cons, hhead, List.cons.injEq, true_and]
    apply ih
    · intro q d r hkept
      cases h : cacheLookup cache queryID (getUserQueryResultsDependants s queryID) with
      | some kept =>
        rw [memoized_of_kept cache s queryID kept h] at hkept
        obtain ⟨origin, hres, hdeps, hall⟩ := hsound q d r hkept
        exact ⟨origin, hres, hdeps, fun c hc => hall c (List.mem_cons_of_mem _ hc)⟩
      | none =>
        rw [memoized_of_new cache s queryID h] at hkept
        simp only [cacheLookup_cons] at hkept
        by_cases hkey : queryID = q ∧ getUserQueryResultsDependants s queryID = d
        · obtain ⟨hq, hd⟩ := hkey
          subst hq
          subst hd
          simp only [and_self, if_true, Option.some.injEq] at hkept
          exact ⟨s, hkept.symm, rfl, fun c hc =>
            hcoh (s, queryID) (List.mem_cons_self _ _) c (List.mem_cons_of_mem _ hc)⟩
        · simp only [hkey, if_false] at hkept
          obtain ⟨origin, hres, hdeps, hall⟩ := hsound q d r hkept
          exact ⟨origin, hres, hdeps, fun c hc => hall c (List.mem_cons_of_mem _ hc)⟩
    · intro c hc c' hc'
      exact hcoh c (List.mem_cons_of_mem _ hc) c' (List.mem_cons_of_mem _ hc')

theorem runCalls_earlier_call (pre mid post : List (TrackedState × String))
    (prev cur : TrackedState × String) (cache : List MemoEntry)
    (hq : prev.2 = cur.2)
    (hdeps : getUserQueryResultsDependants prev.1 prev.2
      = getUserQueryResultsDependants cur.1 cur.2) :
    ∃ outsPre first outsMid second outsPost,
      runCalls cache (pre ++ prev :: (mid ++ cur :: post))
          = outsPre ++ first :: (outsMid ++ second :: outsPost)
        ∧ outsPre.length = pre.length ∧ outsMid.length = mid.length
        ∧ second.result = first.result ∧ second.recomputed = false := by
  obtain ⟨s, queryID⟩ := prev
  obtain ⟨s', queryID'⟩ := cur
  simp only at hq hdeps
  subst hq
  have hkept := cacheAfter_preserves mid
    (memoizedGetUserQueryResults (cacheAfter cache pre) s queryID).cache queryID
    (getUserQueryResultsDependants s queryID) _
    (memoized_keeps (cacheAfter cache pre) s queryID)
  rw [hdeps] at hkept
  have hhit := memoized_hit _ s' queryID _ hkept
  refine ⟨runCalls cache pre, memoizedGetUserQueryResults (cacheAfter cache pre) s queryID,
    runCalls (memoizedGetUserQueryResults (cacheAfter cache pre) s queryID).cache mid,
    memoizedGetUserQueryResults
      (cacheAfter (memoizedGetUserQueryResults (cacheAfter cache pre) s queryID).cache mid)
      s' queryID,
    runCalls
      (memoizedGetUserQueryResults
        (cacheAfter (memoizedGetUserQueryResults (cacheAfter cache pre) s queryID).cache mid)
        s' queryID).cache post,
    ?_, runCalls_length pre cache, runCalls_length mid _, hhit.1, hhit.2⟩
  rw [runCalls_append pre cache]
  show runCalls cache pre
      ++ memoizedGetUserQueryResults (cacheAfter cache pre) s queryID
        :: runCalls (memoizedGetUserQueryResults (cacheAfter cache pre) s queryID).cache
            (mid ++ (s', queryID) :: post) = _
  rw [runCalls_append mid]
  rfl

/-- C11: memoization of `getUserQueryResults` is transparent. Over every
sequence of calls on states of a store in which a dependant held at the same
address has the same content, starting from the empty cache, each call of the
memoized selector returns what the computation returns on that call's state;
and a call with the query id and the dependants of an earlier call, in
particular of the previous call with the same query id, returns the result of
that call without running the computation. -/
theorem memoized_getUserQueryResults_transparent
    (calls : List (TrackedState × String))
    (hcoh : ∀ c ∈ calls, ∀ c' ∈ calls, Coherent c.1 c'.1) :
    (runCalls [] calls).map MemoStep.result
        = calls.map (fun c => getUserQueryResults c.1.state c.2)
      ∧ ∀ pre prev mid cur post, calls = pre ++ prev :: (mid ++ cur :: post) →
          prev.2 = cur.2 →
          getUserQueryResultsDependants prev.1 prev.2
            = getUserQueryResultsDependants cur.1 cur.2 →
          ∃ outsPre first outsMid second outsPost,
            runCalls [] calls = outsPre ++ first :: (outsMid ++ second :: outsPost)
              ∧ outsPre.length = pre.length ∧ outsMid.length = mid.length
              ∧ second.result = first.result ∧ second.recomputed = false := by
  constructor
  · apply runCalls_results calls [] _ hcoh
    intro q d r hkept
    cases hkept
  · intro pre prev mid cur post hcalls hq hdeps
    rw [hcalls]
    exact runCalls_earlier_call pre mid post prev cur [] hq hdeps

/-- Witness of C11: the calls `authors`, `editors`, `authors` on one state of
the store. Each returns the records of its query, and the computation runs for
the first two calls only. -/
theorem memoized_getUserQueryResults_transparent_witness :
    (runCalls []
        [(trackedFixture [], "authors"), (trackedFixture [], "editors"),
         (trackedFixture [], "authors")]).map MemoStep.result
        = [[userRecord 2 "bob", userRecord 1 "ann"], [userRecord 1 "ann"],
           [userRecord 2 "bob", userRecord 1 "ann"]]
      ∧ (runCalls []
        [(trackedFixture [], "authors"), (trackedFixture [], "editors"),
         (trackedFixture [], "authors")]).map MemoStep.recomputed
        = [true, true, false] :=
  ⟨(memoized_getUserQueryResults_transparent
      [(trackedFixture [], "authors"), (trackedFixture [], "editors"),
       (trackedFixture [], "authors")]
      (by
        intro c hc c' hc'
        simp only [List.mem_cons, List.mem_singleton, List.not_mem_nil, or_false] at hc hc'
        rcases hc with rfl | rfl | rfl <;> rcases hc' with rfl | rfl | rfl <;>
          exact ⟨fun _ => rfl, fun _ _ _ h h' _ => Option.some.inj (h.symm.trans h')⟩)).1,
   rfl⟩

/-- C12: the declared dependant of `getEntityRecords` is sufficient. On any
two states whose buckets `entities[kind][name]` hold the same `byKey` map, the
computation yields the same list, the values of that map, whatever else
differs between the two states. -/
theorem getEntityRecords_depends_on_byKey (s1 s2 : State) (kind name : String)
    (byKind1 byKind2 : Obj Bucket) (bucket1 bucket2 : Bucket)
    (hkind1 : Obj.find? s1.entities kind = some byKind1)
    (hname1 : Obj.find? byKind1 name = some bucket1)
    (hkind2 : Obj.find? s2.entities kind = some byKind2)
    (hname2 : Obj.find? byKind2 name = some bucket2)
    (hsame : bucket1.byKey = bucket2.byKey) :
    getEntityRecords s1 kind name = getEntityRecords s2 kind name
      ∧ getEntityRecords s2 kind name = Except.ok (Obj.values bucket1.byKey) := by
  have h1 : getEntityRecords s1 kind name = Except.ok (Obj.values bucket1.byKey) := by
    simp [getEntityRecords, member_read_of_own _ _ _ hkind1,
      member_read_of_own _ _ _ hname1, bind, Except.bind, pure, Except.pure]
  have h2 : getEntityRecords s2 kind name = Except.ok (Obj.values bucket1.byKey) := by
    simp [getEntityRecords, member_read_of_own _ _ _ hkind2,
      member_read_of_own _ _ _ hname2, bind, Except.bind, pure, Except.pure, hsame]
  exact ⟨h1.trans h2.symm, h2⟩

/-- Witness of C12: two states that differ in the terms slice and in another
entity kind, with the same `byKey` map under `root`/`postType`. -/
theorem getEntityRecords_depends_on_byKey_witness :
    getEntityRecords (mixedState [] []) "root" "postType"
      = getEntityRecords
          (mixedState [("categories", JSValue.arr [])]
            [("taxonomy", [("category", { byKey := [("news", slugRecord "news")] })])])
          "root" "postType" :=
  (getEntityRecords_depends_on_byKey
    (mixedState [] [])
    (mixedState [("categories", JSValue.arr [])]
      [("taxonomy", [("category", { byKey := [("news", slugRecord "news")] })])])
    "root" "postType"
    [("postType", { byKey := [("post", slugRecord "post"), ("page", slugRecord "page")] })]
    [("postType", { byKey := [("post", slugRecord "post"), ("page", slugRecord "page")] })]
    { byKey := [("post", slugRecord "post"), ("page", slugRecord "page")] }
    { byKey := [("post", slugRecord "post"), ("page", slugRecord "page")] }
    rfl rfl rfl rfl rfl).1

/-! ## Derived accessors -/

/-- C13: `getAuthors` is `getUserQueryResults` for the query id `authors`: the
id list of that query mapped through `byId` in the order of the list (the
empty list when the query has no entry). -/
theorem getAuthors_eq (state : State) :
    getAuthors state = getUserQueryResults state "authors"
      ∧ getAuthors state
          = ((Obj.find? state.users.queries "authors").getD []).map
              (fun id => Obj.get state.users.byId id) := by
  refine ⟨rfl, ?_⟩
  unfold getAuthors getUserQueryResults
  cases hq : Obj.find? state.users.queries "authors" with
  | none =>
    have hname : "authors" ∉ Obj.objectPrototypeKeys := by decide
    simp [Obj.read_of_absent _ _ hq hname, lodashMap]
  | some ids =>
    simp [Obj.read_of_own _ _ _ hq, lodashMap]

/-- C14: `getCategories` is `getTerms` for the taxonomy `categories`, the
value of `terms[ 'categories' ]`, and is `undefined` when that taxonomy has no
entry. -/
theorem getCategories_eq (state : State) :
    getCategories state = getTerms state "categories"
      ∧ getCategories state = Obj.get state.terms "categories"
      ∧ (Obj.find? state.terms "categories" = none →
          getCategories state = JSValue.undefined) := by
  refine ⟨rfl, rfl, ?_⟩
  intro habsent
  have hname : "categories" ∉ Obj.objectPrototypeKeys := by decide
  simp [getCategories, getTerms, Obj.get_of_absent _ _ habsent hname]

/-- Witness of C14: `undefined` before any terms were received, the stored
list afterwards. -/
theorem getCategories_eq_witness :
    getCategories (termsState []) = JSValue.undefined
      ∧ getCategories
          (termsState [("categories", JSValue.arr [JSValue.obj [("id", JSValue.num 1)]])])
        = JSValue.arr [JSValue.obj [("id", JSValue.num 1)]] :=
  ⟨(getCategories_eq (termsState [])).2.2 rfl,
   (getCategories_eq
      (termsState [("categories", JSValue.arr [JSValue.obj [("id", JSValue.num 1)]])])).2.1⟩

/-! ## Enumeration order and agreement of the entity accessors -/

theorem Obj.ownPropertyKeys_of_no_index {α : Type} (o : Obj α)
    (hkeys : ∀ k ∈ Obj.keys o, Obj.arrayIndex? k = none) :
    Obj.ownPropertyKeys o = Obj.keys o := by
  have hnone : (Obj.keys o).filter (fun k => (Obj.arrayIndex? k).isSome) = [] := by
    rw [List.filter_eq_nil_iff]
    intro k hk
    simp [hkeys k hk]
  have hall : (Obj.keys o).filter (fun k => !(Obj.arrayIndex? k).isSome) = Obj.keys o := by
    rw [List.filter_eq_self]
    intro k hk
    simp [hkeys k hk]
  unfold Obj.ownPropertyKeys
  rw [hnone, hall]
  rfl

/-- C15: when the bucket `entities[kind][name]` exists and no key of `byKey`
is an array index (as is the case when the keys are non-numeric strings),
`getEntityRecords` lists the records in the order in which the keys of `byKey`
were inserted. -/
theorem getEntityRecords_insertion_order (state : State) (kind name : String)
    (byKind : Obj Bucket) (bucket : Bucket)
    (hkind : Obj.find? state.entities kind = some byKind)
    (hname : Obj.find? byKind name = some bucket)
    (hkeys : ∀ k ∈ Obj.keys bucket.byKey, Obj.arrayIndex? k = none) :
    getEntityRecords state kind name
      = Except.ok ((Obj.keys bucket.byKey).map (fun k => Obj.get bucket.byKey k)) := by
  simp [getEntityRecords, member_read_of_own _ _ _ hkind, member_read_of_own _ _ _ hname,
    bind, Except.bind, pure, Except.pure, Obj.values,
    Obj.ownPropertyKeys_of_no_index bucket.byKey hkeys]

/-- Witness of C15 on the fixture of the selectors test: a map built as `post`
then `page` yields the record of `post`, then the record of `page`. -/
theorem getEntityRecords_insertion_order_witness :
    getEntityRecords
        (bucketState "root" "postType"
          [("post", slugRecord "post"), ("page", slugRecord "page")])
        "root" "postType"
      = Except.ok [slugRecord "post", slugRecord "page"] :=
  getEntityRecords_insertion_order
    (bucketState "root" "postType"
      [("post", slugRecord "post"), ("page", slugRecord "page")])
    "root" "postType"
    [("postType", { byKey := [("post", slugRecord "post"), ("page", slugRecord "page")] })]
    { byKey := [("post", slugRecord "post"), ("page", slugRecord "page")] } rfl rfl
    (by
      intro k hk
      have hk2 : k ∈ ["post", "page"] := hk
      simp only [List.mem_cons, List.mem_singleton, List.not_mem_nil, or_false] at hk2
      rcases hk2 with rfl | rfl <;> rfl)

/-- C16: `getEntityRecord` and `getEntityRecords` agree. When the bucket
`entities[kind][name]` exists, a record is an element of the list returned by
`getEntityRecords` exactly when `getEntityRecord` returns it for some key of
`byKey`, and the list has as many elements as `byKey` has keys. -/
theorem getEntityRecords_agree (state : State) (kind name : String)
    (byKind : Obj Bucket) (bucket : Bucket)
    (hkind : Obj.find? state.entities kind = some byKind)
    (hname : Obj.find? byKind name = some bucket) :
    ∃ records, getEntityRecords state kind name = Except.ok records
      ∧ (∀ record, record ∈ records ↔
          ∃ k ∈ Obj.keys bucket.byKey,
            getEntityRecord state kind name k = Except.ok record)
      ∧ records.length = (Obj.keys bucket.byKey).length := by
  have hrecord : ∀ k, getEntityRecord state kind name k
      = Except.ok (Obj.get bucket.byKey k) := by
    intro k
    simp [getEntityRecord, member_read_of_own _ _ _ hkind, member_read_of_own _ _ _ hname,
      bind, Except.bind, pure, Except.pure]
  refine ⟨Obj.values bucket.byKey, ?_, ?_, ?_⟩
  · simp [getEntityRecords, member_read_of_own _ _ _ hkind, member_read_of_own _ _ _ hname,
      bind, Except.bind, pure, Except.pure]
  · intro record
    rw [(Obj.values_perm bucket.byKey).mem_iff, List.mem_map]
    constructor
    · rintro ⟨k, hk, hget⟩
      exact ⟨k, hk, by rw [hrecord, hget]⟩
    · rintro ⟨k, hk, hget⟩
      rw [hrecord] at hget
      exact ⟨k, hk, Except.ok.inj hget⟩
  · rw [(Obj.values_perm bucket.byKey).length_eq, List.length_map]

/-- Witness of C16 on the fixture of the selectors test. -/
theorem getEntityRecords_agree_witness :
    ∃ records,
      getEntityRecords
          (bucketState "root" "postType"
            [("post", slugRecord "post"), ("page", slugRecord "page")])
          "root" "postType" = Except.ok records
        ∧ records.length = 2 :=
  match getEntityRecords_agree
      (bucketState "root" "postType"
        [("post", slugRecord "post"), ("page", slugRecord "page")])
      "root" "postType"
      [("postType", { byKey := [("post", slugRecord "post"), ("page", slugRecord "page")] })]
      { byKey := [("post", slugRecord "post"), ("page", slugRecord "page")] } rfl rfl with
  | ⟨records, hok, _, hlen⟩ => ⟨records, hok, hlen⟩

/-! ## Absent queries and absent users -/

/-- C17, counterexample: the id `constructor` of the list of `authors` has no
entry in `byId`, yet the element at its position is the member of
`Object.prototype` under that key and not `undefined`. -/
theorem getUserQueryResults_inherited_id :
    Obj.find? (usersState [] [("authors", ["constructor"])]).users.byId "constructor" = none
      ∧ (getUserQueryResults (usersState [] [("authors", ["constructor"])]) "authors")[0]?
          = some (JSValue.inherited "constructor")
      ∧ (getUserQueryResults (usersState [] [("authors", ["constructor"])]) "authors")[0]?
          ≠ some JSValue.undefined := by
  refine ⟨rfl, rfl, ?_⟩
  intro h
  cases h

/-- C17, amended: for a query id with no entry in `users.queries`,
`getUserQueryResults` returns the empty list; and an id of a query's list that
has no entry in `users.byId` and does not name a member of `Object.prototype`
yields `undefined` at its position. -/
theorem getUserQueryResults_absent (state : State) (queryID : String) :
    (Obj.find? state.users.queries queryID = none →
        getUserQueryResults state queryID = [])
      ∧ (∀ (ids : List String) (i : Nat) (id : String),
          Obj.find? state.users.queries queryID = some ids →
          ids[i]? = some id →
          Obj.find? state.users.byId id = none →
          id ∉ Obj.objectPrototypeKeys →
          (getUserQueryResults state queryID)[i]? = some JSValue.undefined) := by
  constructor
  · intro habsent
    by_cases hq : queryID ∈ Obj.objectPrototypeKeys
    · simp [getUserQueryResults, Obj.read_of_inherited _ _ habsent hq, lodashMap]
    · simp [getUserQueryResults, Obj.read_of_absent _ _ habsent hq, lodashMap]
  · intro ids i id hq hid habsent hname
    simp [getUserQueryResults, Obj.read_of_own _ _ _ hq, lodashMap, List.getElem?_map, hid,
      Obj.get_of_absent _ _ habsent hname]

/-- Witness of C17: an unknown query id gives the empty list, and the id `3`,
unknown to `byId`, gives `undefined` between the records of its neighbours. -/
theorem getUserQueryResults_absent_witness :
    getUserQueryResults
        (usersState [("1", userRecord 1 "ann")] [("authors", ["1", "3", "1"])])
        "editors" = []
      ∧ (getUserQueryResults
          (usersState [("1", userRecord 1 "ann")] [("authors", ["1", "3", "1"])])
          "authors")[1]? = some JSValue.undefined :=
  ⟨(getUserQueryResults_absent
      (usersState [("1", userRecord 1 "ann")] [("authors", ["1", "3", "1"])])
      "editors").1 rfl,
   (getUserQueryResults_absent
      (usersState [("1", userRecord 1 "ann")] [("authors", ["1", "3", "1"])])
      "authors").2 ["1", "3", "1"] 1 "3" rfl rfl rfl (by decide)⟩

/-! ## Two tracker queries for the categories -/

/-- C18: `isRequestingTerms( state, 'categories' )` and
`isRequestingCategories()` are different tracker queries. Under the mock
tracker of the test, in progress for the selector name `getCategories` only,
the second is true and the first is false on every state, although
`getCategories` and `getTerms` for `categories` return the same value on
every state. -/
theorem isRequesting_queries_differ :
    isRequestingCategories (setIsResolving true) = true
      ∧ (∀ state : State,
          isRequestingTerms (setIsResolving true) state "categories" = false)
      ∧ ∀ state : State, getCategories state = getTerms state "categories" :=
  ⟨by decide, fun _ => by rfl, fun _ => rfl⟩

end CoreData
